import Mathlib

/-!
# Shallow embedding of the vector-service core (src/vector-service/main.py)

This file models the per-user vector document index of the chat-bot-ai
repository: ingestion (`upload_document`), retrieval (`search_documents`),
and deletion (`delete_document`), together with the per-user persistence
(`load_user_index` / `save_user_index`).

Modelling conventions:
* Embedding vectors (`float32` rows of the FAISS index) are modelled as
  `List Int`; the exact numeric type is irrelevant to the stated claims,
  which concern counts, order, and structural equality.
* The external embedding backend (`OpenAIEmbeddings`) is a parameter
  `embed : String → List Int`; `embed_documents` maps it over a batch and
  `embed_query` applies it to one string.  The flag `configured : Bool`
  models whether `OPENAI_API_KEY` is set (`embeddings is None` in the code).
* The external text splitter (`RecursiveCharacterTextSplitter.split_text`)
  is a parameter `split : String → List String`.
* A file's bytes are abstracted by the outcome of parsing them as their
  claimed type (PyPDF2 / docx2txt / UTF-8 decode, dispatched by extension):
  `parsed = some text` when extraction succeeds, `none` when the external
  parser raises, in which case `extract_text_from_file` raises the 400.
* The per-user on-disk pair (faiss.index, metadata.json) is a
  `UserStore := Option (FaissIndex × Metadata)`: `none` when the files are
  absent.  `save_user_index` returning `False` (an I/O error, logged and
  swallowed by the code) is modelled by the parameter `saveOk`; a failed
  save leaves the stored pair unchanged.
* A raised `HTTPException(status, detail)` is an `HErr`; each endpoint
  returns `Except HErr response × UserStore` (response or error, plus the
  resulting persisted state).  The bare `except Exception` in
  `upload_document` that rewraps any exception of the try block into a 500
  is modelled by `rewrap500`.
-/

namespace VectorService

/-- An embedding vector: one row of the FAISS index. -/
abbrev Vec := List Int

/-- `faiss.IndexFlatIP`: a flat exact inner-product index.  `dim` is the
dimension fixed at construction, `rows` the appended vectors in insertion
order (`ntotal = rows.length`). -/
structure FaissIndex where
  dim : Nat
  rows : List Vec
deriving Repr, DecidableEq

/-- `index.add(array)`: append the batch's rows in order. -/
def FaissIndex.add (idx : FaissIndex) (vs : List Vec) : FaissIndex :=
  { idx with rows := idx.rows ++ vs }

/-- `index.ntotal`: number of stored rows. -/
def FaissIndex.rowCount (idx : FaissIndex) : Nat := idx.rows.length

/-- Inner product of two vectors (`IndexFlatIP` similarity). -/
def innerProd (a b : Vec) : Int := (List.zipWith (fun x y => x * y) a b).sum

/-- `index.search(query_vector, k)`: score every stored row against the
query by inner product, rank score-descending, return the best `k` as
(score, row-index) pairs. -/
def FaissIndex.search (idx : FaissIndex) (q : Vec) (k : Nat) : List (Int × Nat) :=
  (((idx.rows.enum.map (fun p => (innerProd q p.2, p.1))).mergeSort
      (fun a b => decide (b.1 ≤ a.1))).take k)

/-- The `metadata` sub-dict of a chunk entry:
`{"filename": ..., "chunk_number": i+1, "total_chunks": len(chunks)}`. -/
structure ChunkMeta where
  filename : String
  chunk_number : Nat
  total_chunks : Nat
deriving Repr, DecidableEq, Inhabited

/-- One entry of `metadata["chunks"]`. -/
structure Chunk where
  document_id : String
  chunk_index : Nat
  content : String
  meta : ChunkMeta
deriving Repr, DecidableEq, Inhabited

/-- One entry of `metadata["documents"]` (value of a document-id key). -/
structure DocEntry where
  filename : String
  size : Nat
  chunks : Nat
  uploaded_at : String
  start_index : Nat
  end_index : Nat
deriving Repr, DecidableEq, Inhabited

/-- The per-user `metadata.json` document: an insertion-ordered dict of
documents plus the flat ordered chunk list. -/
structure Metadata where
  documents : List (String × DocEntry)
  chunks : List Chunk
deriving Repr, DecidableEq, Inhabited

/-- The `{}` metadata returned by `load_user_index` when no files exist
(`metadata.get(...)` on it yields falsy values, i.e. empty lists here). -/
def Metadata.empty : Metadata := ⟨[], []⟩

/-- The persisted per-user pair (faiss.index file, metadata.json file);
`none` when the files are absent. -/
abbrev UserStore := Option (FaissIndex × Metadata)

/-- `load_user_index(username)`: `(None, {})` when no files exist,
otherwise the deserialized pair. -/
def load_user_index (store : UserStore) : Option FaissIndex × Metadata :=
  match store with
  | none => (none, Metadata.empty)
  | some (i, m) => (some i, m)

/-- Python dict insert `d[k] = v`: overwrite in place if the key exists
(keeping its position), else append. -/
def dictInsert (d : List (String × DocEntry)) (k : String) (v : DocEntry) :
    List (String × DocEntry) :=
  if d.any (fun p => p.1 == k) then
    d.map (fun p => if p.1 == k then (k, v) else p)
  else d ++ [(k, v)]

/-- Python `del d[k]`. -/
def dictRemove (d : List (String × DocEntry)) (k : String) :
    List (String × DocEntry) :=
  d.filter (fun p => p.1 != k)

/-- Python `d.get(k)` / `d[k]` lookup. -/
def dictGet? (d : List (String × DocEntry)) (k : String) : Option DocEntry :=
  (d.find? (fun p => p.1 == k)).map (fun p => p.2)

/-- A raised `HTTPException(status_code, detail)`. -/
structure HErr where
  status : Nat
  detail : String
deriving Repr, DecidableEq

/-- JSON body returned by a successful `POST /documents/upload`. -/
structure UploadResponse where
  document_id : String
  filename : String
  chunks_created : Nat
  message : String
deriving Repr, DecidableEq

/-- One element of the `results` list of `POST /search`. -/
structure SearchResult where
  content : String
  metadata : ChunkMeta
  score : Int
deriving Repr, DecidableEq

/-- Body of a successful `POST /search`. -/
structure SearchResponse where
  results : List SearchResult
  total : Nat
deriving Repr, DecidableEq

/-- An uploaded file: its (multipart) filename, size, and the abstract
outcome of parsing its bytes as their claimed type (`none` when the
external parser fails — corrupt PDF, binary read as text, ...). -/
structure UploadedFile where
  filename : String
  parsed : Option String
  size : Nat
deriving Repr, DecidableEq

/-- `extract_text_from_file`: returns the extracted text, or raises the
client-facing `HTTPException(400, "Failed to extract text from ...")` when
the dispatched parser fails. -/
def extract_text_from_file (f : UploadedFile) : Except HErr String :=
  match f.parsed with
  | some t => Except.ok t
  | none => Except.error ⟨400, "Failed to extract text from " ++ f.filename⟩

/-- The chunk entries appended by `upload_document`'s `for i, chunk in
enumerate(chunks)` loop. -/
def mkChunks (docId fname : String) (chunks : List String) : List Chunk :=
  chunks.enum.map (fun p =>
    { document_id := docId
      chunk_index := p.1
      content := p.2
      meta := { filename := fname
                chunk_number := p.1 + 1
                total_chunks := chunks.length } })

/-- The document entry registered by `upload_document` under the fresh id. -/
def mkEntry (f : UploadedFile) (now : String) (start_idx n : Nat) : DocEntry :=
  { filename := f.filename
    size := f.size
    chunks := n
    uploaded_at := now
    start_index := start_idx
    end_index := start_idx + n }

/-- The body of `upload_document`'s `try:` block, up to (but excluding)
`save_user_index`: extract, chunk, embed, load, mutate.  Returns the number
of chunks created together with the index and metadata to be saved. -/
def uploadPipeline (split : String → List String) (embed : String → Vec)
    (docId now : String) (f : UploadedFile) (store : UserStore) :
    Except HErr (Nat × FaissIndex × Metadata) :=
  match extract_text_from_file f with
  | Except.error e => Except.error e
  | Except.ok text =>
    let chunks := split text
    if chunks = [] then
      Except.error ⟨400, "No text content found in file"⟩
    else
      let chunk_embeddings := chunks.map embed
      let loaded := load_user_index store
      let (index, metadata) :=
        match loaded.1 with
        | some i => (i, loaded.2)
        | none => (⟨(chunk_embeddings.headD []).length, []⟩, Metadata.empty)
      let start_idx := metadata.chunks.length
      let index := index.add chunk_embeddings
      let metadata : Metadata :=
        { metadata with chunks := metadata.chunks ++ mkChunks docId f.filename chunks }
      let entry := mkEntry f now start_idx chunks.length
      let metadata : Metadata :=
        { metadata with documents := dictInsert metadata.documents docId entry }
      Except.ok (chunks.length, index, metadata)

/-- `except Exception as e: raise HTTPException(500, f"Error processing
document: {e}")` — any exception of the try block, including the 400
`HTTPException`s raised inside it, is rewrapped as a 500. -/
def rewrap500 (e : HErr) : HErr :=
  ⟨500, "Error processing document: " ++ toString e.status ++ ": " ++ e.detail⟩

/-- `POST /documents/upload`.  `configured` models `embeddings` being
non-`None`; `docId` the fresh `uuid4`; `now` the upload timestamp;
`saveOk` whether `save_user_index` succeeds (its boolean result is ignored
by the endpoint).  Returns the HTTP outcome and the resulting store. -/
def uploadDocument (split : String → List String) (embed : String → Vec)
    (configured : Bool) (f : UploadedFile) (docId now : String)
    (saveOk : Bool) (store : UserStore) :
    Except HErr UploadResponse × UserStore :=
  if configured = false then
    (Except.error ⟨500, "OpenAI API key not configured"⟩, store)
  else if f.filename = "" then
    (Except.error ⟨400, "No file provided"⟩, store)
  else
    match uploadPipeline split embed docId now f store with
    | Except.error e => (Except.error (rewrap500 e), store)
    | Except.ok (n, index, metadata) =>
      let store' := if saveOk then some (index, metadata) else store
      (Except.ok
        { document_id := docId
          filename := f.filename
          chunks_created := n
          message := "Document uploaded and indexed successfully" }, store')

/-- `POST /search`.  Search never mutates the store, so only the HTTP
outcome is returned. -/
def searchDocuments (embed : String → Vec) (configured : Bool)
    (store : UserStore) (query : String) (top_k : Nat) :
    Except HErr SearchResponse :=
  if configured = false then
    Except.error ⟨500, "OpenAI API key not configured"⟩
  else
    let loaded := load_user_index store
    match loaded.1 with
    | none => Except.ok ⟨[], 0⟩
    | some index =>
      if loaded.2.chunks = [] then Except.ok ⟨[], 0⟩
      else
        let query_vector := embed query
        let k := min top_k loaded.2.chunks.length
        let hits := index.search query_vector k
        let results := (hits.filter (fun p => p.2 < loaded.2.chunks.length)).map
          (fun p =>
            let chunk_data := loaded.2.chunks.getD p.2 default
            { content := chunk_data.content
              metadata := chunk_data.meta
              score := p.1 : SearchResult })
        Except.ok ⟨results, results.length⟩

/-- The chunk-list compaction of `delete_document`: keep exactly the chunks
whose position is outside `[start_idx, end_idx)`, in order. -/
def removeRange (l : List Chunk) (s e : Nat) : List Chunk :=
  (l.enum.filter (fun p => !(decide (s ≤ p.1) && decide (p.1 < e)))).map
    (fun p => p.2)

/-- `DELETE /documents/{document_id}`.  `configured` models `embeddings`
being non-`None` (the endpoint never checks it; with survivors to re-embed
and no backend, `embeddings.embed_query` raises an `AttributeError`, which
FastAPI surfaces as a 500).  `saveOk` as in `uploadDocument`. -/
def deleteDocument (embed : String → Vec) (configured : Bool) (saveOk : Bool)
    (store : UserStore) (docId : String) :
    Except HErr String × UserStore :=
  let loaded := load_user_index store
  match dictGet? loaded.2.documents docId with
  | none => (Except.error ⟨404, "Document not found"⟩, store)
  | some doc_data =>
    let start_idx := doc_data.start_index
    let end_idx := doc_data.end_index
    let new_chunks := removeRange loaded.2.chunks start_idx end_idx
    let metadata : Metadata :=
      { documents := dictRemove loaded.2.documents docId
        chunks := new_chunks }
    if new_chunks = [] then
      (Except.ok ("Document " ++ docId ++ " deleted successfully"), none)
    else if configured = false then
      (Except.error ⟨500, "'NoneType' object has no attribute 'embed_query'"⟩,
        store)
    else
      let all_embeddings := new_chunks.map (fun c => embed c.content)
      let dimension := (all_embeddings.headD []).length
      let new_index : FaissIndex := ⟨dimension, all_embeddings⟩
      let store' := if saveOk then some (new_index, metadata) else store
      (Except.ok ("Document " ++ docId ++ " deleted successfully"), store')

/-- Chunk list recorded in the user's persisted metadata (empty when the
files are absent). -/
def storeChunks (store : UserStore) : List Chunk :=
  (load_user_index store).2.chunks

/-- Number of persisted chunks. -/
def storeChunkCount (store : UserStore) : Nat := (storeChunks store).length

/-- Rows of the persisted vector index (empty when the files are absent). -/
def storeRows (store : UserStore) : List Vec :=
  match store with
  | none => []
  | some (i, _) => i.rows

/-- The row-count invariant: whenever the files exist, the persisted index
has exactly one row per persisted chunk. -/
def rowInv (store : UserStore) : Prop :=
  ∀ i m, store = some (i, m) → i.rows.length = m.chunks.length

/-- Well-formedness used for the round-trip property: the persisted rows
are exactly the embeddings of the persisted chunks' contents, and the
index dimension was inferred from the first of them. -/
def indexMatches (embed : String → Vec) (store : UserStore) : Prop :=
  ∀ i m, store = some (i, m) →
    i.rows = m.chunks.map (fun c => embed c.content) ∧
    i.dim = ((m.chunks.map (fun c => embed c.content)).headD []).length

/-- Dimension of the index `upload_document` saves: the existing index's
dimension, or for a first upload the width of the first embedding. -/
def uploadDim (embed : String → Vec) (store : UserStore) (chunks : List String) : Nat :=
  match store with
  | none => (((chunks.map embed)).headD []).length
  | some (i, _) => i.dim

/-! ## Concrete fixtures (used in counterexamples and witnesses) -/

/-- A splitter producing one chunk: the whole text. -/
def cSplit : String → List String := fun t => [t]

/-- A two-dimensional embedder. -/
def cEmbed : String → Vec := fun _ => [1, 2]

/-- A parseable plain-text upload. -/
def cFile : UploadedFile := ⟨"a.txt", some "hello", 5⟩

/-- A PDF whose bytes fail to parse (PyPDF2 raises). -/
def cBadPdf : UploadedFile := ⟨"doc.pdf", none, 10⟩

/-- A splitter producing no chunks at all. -/
def cEmptySplit : String → List String := fun _ => []

/-- A store holding one document with a single chunk. -/
def cStore1 : UserStore :=
  some (⟨2, [[1, 2]]⟩,
    ⟨[("d0", ⟨"a.txt", 5, 1, "t0", 0, 1⟩)],
     [⟨"d0", 0, "hello", ⟨"a.txt", 1, 1⟩⟩]⟩)

/-- Registry entry of the first fixture document. -/
def cDocA : DocEntry := ⟨"a.txt", 2, 1, "t0", 0, 1⟩

/-- Registry entry of the second fixture document. -/
def cDocB : DocEntry := ⟨"b.txt", 2, 1, "t1", 1, 2⟩

/-- The registry holding the two fixture documents. -/
def cDocs2 : List (String × DocEntry) := [("dA", cDocA), ("dB", cDocB)]

/-- The chunk list of the two fixture documents. -/
def cChunks2 : List Chunk :=
  [⟨"dA", 0, "aa", ⟨"a.txt", 1, 1⟩⟩, ⟨"dB", 0, "bb", ⟨"b.txt", 1, 1⟩⟩]

/-- A store holding two one-chunk documents. -/
def cStore2 : UserStore := some (⟨1, [[1], [2]]⟩, ⟨cDocs2, cChunks2⟩)

/-! ## Characterization lemmas -/

theorem length_mkChunks (docId fname : String) (cs : List String) :
    (mkChunks docId fname cs).length = cs.length := by
  simp [mkChunks, List.enum_eq_enumFrom]

theorem mkChunks_map_chunk_index (docId fname : String) (cs : List String) :
    (mkChunks docId fname cs).map Chunk.chunk_index = List.range cs.length := by
  rw [mkChunks, List.map_map, List.enum_eq_enumFrom]
  have hfg : (Chunk.chunk_index ∘ fun p : Nat × String =>
      ({ document_id := docId
         chunk_index := p.1
         content := p.2
         meta := { filename := fname
                   chunk_number := p.1 + 1
                   total_chunks := cs.length } } : Chunk)) = Prod.fst := rfl
  rw [hfg, List.enumFrom_map_fst, ← List.range_eq_range']

theorem mkChunks_map_content (docId fname : String) (cs : List String) :
    (mkChunks docId fname cs).map Chunk.content = cs := by
  rw [mkChunks, List.map_map, List.enum_eq_enumFrom]
  have hfg : (Chunk.content ∘ fun p : Nat × String =>
      ({ document_id := docId
         chunk_index := p.1
         content := p.2
         meta := { filename := fname
                   chunk_number := p.1 + 1
                   total_chunks := cs.length } } : Chunk)) = Prod.snd := rfl
  rw [hfg, List.enumFrom_map_snd]

theorem fst_lt_of_mem_enumFrom {α : Type} :
    ∀ (l : List α) (n : Nat) (p : Nat × α), p ∈ l.enumFrom n → p.1 < n + l.length
  | [], _, p, h => by simp at h
  | x :: l, n, p, h => by
    rw [List.enumFrom_cons] at h
    rcases List.mem_cons.mp h with h1 | h2
    · subst h1
      simp only [List.length_cons]
      omega
    · have := fst_lt_of_mem_enumFrom l (n + 1) p h2
      simp only [List.length_cons]
      omega

theorem uploadPipeline_eq (split : String → List String) (embed : String → Vec)
    (docId now : String) (f : UploadedFile) (store : UserStore) (t : String)
    (ht : f.parsed = some t) (hcs : split t ≠ []) :
    uploadPipeline split embed docId now f store =
      Except.ok ((split t).length,
        ⟨uploadDim embed store (split t), storeRows store ++ (split t).map embed⟩,
        ⟨dictInsert (load_user_index store).2.documents docId
           (mkEntry f now (storeChunkCount store) (split t).length),
         storeChunks store ++ mkChunks docId f.filename (split t)⟩) := by
  cases store with
  | none =>
    simp [uploadPipeline, extract_text_from_file, ht, hcs, uploadDim,
      storeRows, storeChunks, storeChunkCount, load_user_index,
      Metadata.empty, FaissIndex.add]
  | some pair =>
    obtain ⟨i, m⟩ := pair
    simp [uploadPipeline, extract_text_from_file, ht, hcs, uploadDim,
      storeRows, storeChunks, storeChunkCount, load_user_index,
      FaissIndex.add]

theorem uploadDocument_eq (split : String → List String) (embed : String → Vec)
    (f : UploadedFile) (docId now : String) (saveOk : Bool) (store : UserStore)
    (t : String) (hname : f.filename ≠ "") (ht : f.parsed = some t)
    (hcs : split t ≠ []) :
    uploadDocument split embed true f docId now saveOk store =
      (Except.ok
        { document_id := docId
          filename := f.filename
          chunks_created := (split t).length
          message := "Document uploaded and indexed successfully" },
       if saveOk then
        some (⟨uploadDim embed store (split t), storeRows store ++ (split t).map embed⟩,
          ⟨dictInsert (load_user_index store).2.documents docId
             (mkEntry f now (storeChunkCount store) (split t).length),
           storeChunks store ++ mkChunks docId f.filename (split t)⟩)
       else store) := by
  rw [uploadDocument]
  rw [if_neg (by simp)]
  rw [if_neg hname]
  rw [uploadPipeline_eq split embed docId now f store t ht hcs]

theorem filter_enumFrom_of_le {α : Type} (s e : Nat) :
    ∀ (l : List α) (n : Nat), s ≤ n →
      ((l.enumFrom n).filter
          (fun p => !(decide (s ≤ p.1) && decide (p.1 < e)))).map
        (fun p => p.2) = l.drop (e - n)
  | [], n, _ => by simp
  | x :: l, n, hsn => by
    rw [List.enumFrom_cons]
    by_cases hne : n < e
    · have hcond : (!(decide (s ≤ n) && decide (n < e))) = false := by
        simp [hsn, hne]
      rw [List.filter_cons_of_neg (by simp [hcond])]
      rw [filter_enumFrom_of_le s e l (n + 1) (Nat.le_succ_of_le hsn)]
      have h1 : e - n = (e - (n + 1)) + 1 := by omega
      rw [h1, List.drop_succ_cons]
    · have hcond : (!(decide (s ≤ n) && decide (n < e))) = true := by
        simp [hne]
      rw [List.filter_cons_of_pos (by simp [hcond])]
      rw [List.map_cons]
      rw [filter_enumFrom_of_le s e l (n + 1) (Nat.le_succ_of_le hsn)]
      have h1 : e - n = 0 := by omega
      have h2 : e - (n + 1) = 0 := by omega
      rw [h1, h2, List.drop_zero, List.drop_zero]

theorem filter_enumFrom_take_drop {α : Type} (s e : Nat) (hse : s ≤ e) :
    ∀ (l : List α) (n : Nat), n ≤ s →
      ((l.enumFrom n).filter
          (fun p => !(decide (s ≤ p.1) && decide (p.1 < e)))).map
        (fun p => p.2) = l.take (s - n) ++ l.drop (e - n)
  | [], n, _ => by simp
  | x :: l, n, hns => by
    by_cases hlt : n < s
    · rw [List.enumFrom_cons]
      have hcond : (!(decide (s ≤ n) && decide (n < e))) = true := by
        simp [Nat.not_le.mpr hlt]
      rw [List.filter_cons_of_pos (by simp [hcond])]
      rw [List.map_cons]
      rw [filter_enumFrom_take_drop s e hse l (n + 1) hlt]
      have h1 : s - n = (s - (n + 1)) + 1 := by omega
      have h2 : e - n = (e - (n + 1)) + 1 := by omega
      rw [h1, h2, List.take_succ_cons, List.drop_succ_cons, List.cons_append]
    · have hn : n = s := Nat.le_antisymm hns (Nat.not_lt.mp hlt)
      rw [filter_enumFrom_of_le s e (x :: l) n (hn ▸ Nat.le_refl s)]
      have h1 : s - n = 0 := by omega
      rw [h1, List.take_zero, List.nil_append]

/-- The compaction of `delete_document` keeps the prefix before the
document's range and the suffix after it, in order. -/
theorem removeRange_eq (l : List Chunk) (s e : Nat) (hse : s ≤ e) :
    removeRange l s e = l.take s ++ l.drop e := by
  rw [removeRange, List.enum_eq_enumFrom]
  rw [filter_enumFrom_take_drop s e hse l 0 (Nat.zero_le s)]
  rw [Nat.sub_zero, Nat.sub_zero]

theorem removeRange_append_self (a b : List Chunk) :
    removeRange (a ++ b) a.length (a.length + b.length) = a := by
  rw [removeRange_eq (a ++ b) a.length (a.length + b.length) (Nat.le_add_right _ _)]
  rw [List.take_left]
  have h : a.length + b.length = (a ++ b).length := by simp
  rw [h, List.drop_length, List.append_nil]

theorem dictGet?_insert_self (d : List (String × DocEntry)) (k : String)
    (v : DocEntry) : dictGet? (dictInsert d k v) k = some v := by
  rw [dictInsert]
  by_cases h : d.any (fun p => p.1 == k)
  · rw [if_pos h]
    induction d with
    | nil => simp at h
    | cons p rest ih =>
      by_cases hp : p.1 == k
      · simp only [List.map_cons, if_pos hp]
        rw [dictGet?]
        rw [List.find?_cons_of_pos _ (by simp)]
        rfl
      · simp only [List.any_cons, hp, Bool.false_or] at h
        simp only [List.map_cons, if_neg hp]
        rw [dictGet?]
        rw [List.find?_cons_of_neg _ (by simpa using hp)]
        exact ih h
  · rw [if_neg h]
    rw [dictGet?]
    rw [List.find?_append]
    have hnone : d.find? (fun p => p.1 == k) = none := by
      rw [List.find?_eq_none]
      intro p hp
      intro hk
      exact h (List.any_eq_true.mpr ⟨p, hp, hk⟩)
    rw [hnone]
    simp

theorem dictRemove_insert_fresh (d : List (String × DocEntry)) (k : String)
    (v : DocEntry) (h : dictGet? d k = none) :
    dictRemove (dictInsert d k v) k = d := by
  have hfind : d.find? (fun p => p.1 == k) = none := by
    cases hf : d.find? (fun p => p.1 == k) with
    | none => rfl
    | some p => rw [dictGet?, hf] at h; simp at h
  rw [List.find?_eq_none] at hfind
  have hany : d.any (fun p => p.1 == k) = false := by
    rw [List.any_eq_false]
    intro p hp
    exact hfind p hp
  rw [dictInsert, hany]
  simp only [Bool.false_eq_true, if_false]
  rw [dictRemove, List.filter_append]
  have h1 : d.filter (fun p => p.1 != k) = d := by
    rw [List.filter_eq_self]
    intro p hp
    simpa using hfind p hp
  have h2 : [(k, v)].filter (fun p => p.1 != k) = [] := by simp
  rw [h1, h2, List.append_nil]

theorem dictGet?_remove_ne (d : List (String × DocEntry)) (k k' : String)
    (h : k' ≠ k) : dictGet? (dictRemove d k) k' = dictGet? d k' := by
  induction d with
  | nil => rfl
  | cons p rest ih =>
    rw [dictRemove, List.filter_cons]
    by_cases hp : p.1 = k
    · rw [if_neg (by simp [hp])]
      rw [← dictRemove, ih]
      have hrhs : dictGet? (p :: rest) k' = dictGet? rest k' := by
        rw [dictGet?,
          List.find?_cons_of_neg _
            (by simp only [hp, beq_iff_eq]; exact fun hh => h hh.symm),
          ← dictGet?]
      rw [hrhs]
    · rw [if_pos (by simp [hp])]
      show dictGet? (p :: dictRemove rest k) k' = dictGet? (p :: rest) k'
      by_cases hk' : p.1 = k'
      · rw [dictGet?, List.find?_cons_of_pos _ (by simp [hk']), dictGet?,
          List.find?_cons_of_pos _ (by simp [hk'])]
      · rw [dictGet?, List.find?_cons_of_neg _ (by simp [hk']), dictGet?,
          List.find?_cons_of_neg _ (by simp [hk'])]
        exact ih

theorem mkEntry_start (f : UploadedFile) (now : String) (s n : Nat) :
    (mkEntry f now s n).start_index = s := rfl

theorem mkEntry_end (f : UploadedFile) (now : String) (s n : Nat) :
    (mkEntry f now s n).end_index = s + n := rfl

theorem deleteDocument_eq (embed : String → Vec) (saveOk : Bool)
    (i : FaissIndex) (docs : List (String × DocEntry)) (chunks : List Chunk)
    (docId : String) (doc : DocEntry)
    (hdoc : dictGet? docs docId = some doc) :
    deleteDocument embed true saveOk (some (i, ⟨docs, chunks⟩)) docId =
      if removeRange chunks doc.start_index doc.end_index = [] then
        (Except.ok ("Document " ++ docId ++ " deleted successfully"), none)
      else
        (Except.ok ("Document " ++ docId ++ " deleted successfully"),
         if saveOk then
           some (⟨(((removeRange chunks doc.start_index doc.end_index).map
                 (fun c => embed c.content)).headD []).length,
             (removeRange chunks doc.start_index doc.end_index).map
               (fun c => embed c.content)⟩,
             ⟨dictRemove docs docId,
              removeRange chunks doc.start_index doc.end_index⟩)
         else some (i, ⟨docs, chunks⟩)) := by
  by_cases hrr : removeRange chunks doc.start_index doc.end_index = []
  · simp [deleteDocument, load_user_index, hdoc, hrr]
  · simp [deleteDocument, load_user_index, hdoc, hrr]

theorem length_FaissIndex_search (idx : FaissIndex) (q : Vec) (k : Nat) :
    (idx.search q k).length = min k idx.rows.length := by
  simp [FaissIndex.search, List.enum_eq_enumFrom]

theorem snd_lt_of_mem_FaissIndex_search (idx : FaissIndex) (q : Vec) (k : Nat)
    (p : Int × Nat) (hp : p ∈ idx.search q k) : p.2 < idx.rows.length := by
  have h1 : p ∈ (idx.rows.enum.map (fun r => (innerProd q r.2, r.1))).mergeSort
      (fun a b => decide (b.1 ≤ a.1)) := List.mem_of_mem_take hp
  rw [List.mem_mergeSort] at h1
  obtain ⟨r, hr, hpr⟩ := List.mem_map.mp h1
  have hlt := fst_lt_of_mem_enumFrom idx.rows 0 r
    (by rw [← List.enum_eq_enumFrom]; exact hr)
  rw [← hpr]
  simpa using hlt

theorem pairwise_FaissIndex_search (idx : FaissIndex) (q : Vec) (k : Nat) :
    List.Pairwise (fun a b : Int × Nat => b.1 ≤ a.1) (idx.search q k) := by
  have hsorted : ((idx.rows.enum.map (fun r => (innerProd q r.2, r.1))).mergeSort
      (fun a b => decide (b.1 ≤ a.1))).Pairwise
        (fun a b : Int × Nat => decide (b.1 ≤ a.1)) :=
    List.sorted_mergeSort
      (fun a b c hab hbc => by
        simp only [decide_eq_true_eq] at hab hbc ⊢
        exact le_trans hbc hab)
      (fun a b => by
        simp only [Bool.or_eq_true, decide_eq_true_eq]
        exact Int.le_total b.1 a.1)
      (idx.rows.enum.map (fun r => (innerProd q r.2, r.1)))
  have htake := hsorted.sublist (List.take_sublist k _)
  exact htake.imp (fun h => by simpa using h)

/-! ## Claim theorems -/

theorem rowInv_some_of_eq (i : FaissIndex) (m : Metadata)
    (h : i.rows.length = m.chunks.length) : rowInv (some (i, m)) := by
  intro i' m' hm
  rw [Option.some.injEq, Prod.mk.injEq] at hm
  rw [← hm.1, ← hm.2]
  exact h

theorem uploadPipeline_ok_row_count (split : String → List String)
    (embed : String → Vec) (docId now : String) (f : UploadedFile)
    (store : UserStore) (n : Nat) (idx : FaissIndex) (md : Metadata)
    (hinv : rowInv store)
    (hp : uploadPipeline split embed docId now f store = Except.ok (n, idx, md)) :
    idx.rows.length = md.chunks.length := by
  cases hparse : f.parsed with
  | none =>
    simp only [uploadPipeline, extract_text_from_file, hparse] at hp
    exact Except.noConfusion hp
  | some t =>
    by_cases hcs : split t = []
    · simp only [uploadPipeline, extract_text_from_file, hparse, hcs,
        if_pos] at hp
      exact Except.noConfusion hp
    · rw [uploadPipeline_eq split embed docId now f store t hparse hcs] at hp
      simp only [Except.ok.injEq, Prod.mk.injEq] at hp
      obtain ⟨hn, hidx, hmd⟩ := hp
      have hlen : (storeRows store).length = (storeChunks store).length := by
        cases store with
        | none => rfl
        | some pr =>
          obtain ⟨i, m⟩ := pr
          exact hinv i m rfl
      rw [← hidx, ← hmd]
      simp [List.length_append, length_mkChunks, hlen]

/-- Claim C1: after every upload and every delete the persisted vector
index has exactly one row per entry of the persisted metadata chunk list —
provided that invariant held before the operation.  (Error paths leave the
store unchanged; a failed save also leaves it unchanged; a delete removing
the files makes the invariant vacuous.) -/
theorem mutations_preserve_row_count
    (split : String → List String) (embed : String → Vec) (configured : Bool)
    (f : UploadedFile) (docId now delId : String) (saveOk saveOk' : Bool)
    (store : UserStore) (hinv : rowInv store) :
    rowInv (uploadDocument split embed configured f docId now saveOk store).2 ∧
    rowInv (deleteDocument embed configured saveOk' store delId).2 := by
  constructor
  · by_cases hc : configured = false
    · simpa [uploadDocument, hc] using hinv
    · by_cases hf : f.filename = ""
      · simpa [uploadDocument, hc, hf] using hinv
      · simp only [uploadDocument, if_neg hc, if_neg hf]
        cases hp : uploadPipeline split embed docId now f store with
        | error e => simpa using hinv
        | ok v =>
          obtain ⟨n, idx, md⟩ := v
          have hrc := uploadPipeline_ok_row_count split embed docId now f
            store n idx md hinv hp
          cases saveOk with
          | false => simpa using hinv
          | true => exact rowInv_some_of_eq idx md hrc
  · rw [deleteDocument]
    cases hget : dictGet? (load_user_index store).2.documents delId with
    | none => simpa [hget] using hinv
    | some doc =>
      simp only [hget]
      by_cases hemp :
          removeRange (load_user_index store).2.chunks
            doc.start_index doc.end_index = []
      · simp only [hemp, if_pos]
        intro i m hm
        exact Option.noConfusion hm
      · simp only [if_neg hemp]
        by_cases hc : configured = false
        · simpa [hc] using hinv
        · simp only [if_neg hc]
          cases saveOk' with
          | false => simpa using hinv
          | true => exact rowInv_some_of_eq _ _ (by simp)

/-- Witness for C1: concrete upload then delete on an initially empty
store, both preserving the row-count invariant. -/
theorem mutations_preserve_row_count_witness :
    rowInv (uploadDocument cSplit cEmbed true cFile "d1" "t0" true none).2 ∧
    rowInv (deleteDocument cEmbed true true none "d1").2 :=
  mutations_preserve_row_count cSplit cEmbed true cFile "d1" "t0" "d1"
    true true none (fun _ _ h => Option.noConfusion h)

/-- Claim C7: a successful ingestion of N chunks registers the document
with `start_index` equal to the chunk-list length before the append and
`end_index = start_index + N`; the appended chunks keep the input order
with `chunk_index` values `0..N-1` (no gaps), and their vectors are
appended to the index in that same order. -/
theorem upload_order_and_ranges
    (split : String → List String) (embed : String → Vec)
    (f : UploadedFile) (docId now : String) (store : UserStore) (t : String)
    (hname : f.filename ≠ "") (ht : f.parsed = some t) (hcs : split t ≠ []) :
    ∃ idx md,
      (uploadDocument split embed true f docId now true store).2 =
        some (idx, md) ∧
      dictGet? md.documents docId =
        some (mkEntry f now (storeChunkCount store) (split t).length) ∧
      (mkEntry f now (storeChunkCount store) (split t).length).start_index =
        storeChunkCount store ∧
      (mkEntry f now (storeChunkCount store) (split t).length).end_index =
        storeChunkCount store + (split t).length ∧
      md.chunks.take (storeChunkCount store) = storeChunks store ∧
      (md.chunks.drop (storeChunkCount store)).map Chunk.chunk_index =
        List.range (split t).length ∧
      (md.chunks.drop (storeChunkCount store)).map Chunk.content = split t ∧
      idx.rows = storeRows store ++ (split t).map embed := by
  rw [uploadDocument_eq split embed f docId now true store t hname ht hcs]
  have hcount : storeChunkCount store = (storeChunks store).length := rfl
  refine ⟨_, _, rfl, dictGet?_insert_self _ _ _, rfl, rfl, ?_, ?_, ?_, rfl⟩
  · rw [hcount, List.take_left]
  · rw [hcount, List.drop_left, mkChunks_map_chunk_index]
  · rw [hcount, List.drop_left, mkChunks_map_content]

/-- Witness for C7: first upload of a one-chunk document on an empty
store. -/
theorem upload_order_and_ranges_witness :
    ∃ idx md,
      (uploadDocument cSplit cEmbed true cFile "d1" "t0" true none).2 =
        some (idx, md) ∧
      dictGet? md.documents "d1" =
        some (mkEntry cFile "t0" (storeChunkCount none) (cSplit "hello").length) ∧
      (mkEntry cFile "t0" (storeChunkCount none) (cSplit "hello").length).start_index =
        storeChunkCount none ∧
      (mkEntry cFile "t0" (storeChunkCount none) (cSplit "hello").length).end_index =
        storeChunkCount none + (cSplit "hello").length ∧
      md.chunks.take (storeChunkCount none) = storeChunks none ∧
      (md.chunks.drop (storeChunkCount none)).map Chunk.chunk_index =
        List.range (cSplit "hello").length ∧
      (md.chunks.drop (storeChunkCount none)).map Chunk.content = cSplit "hello" ∧
      idx.rows = storeRows none ++ (cSplit "hello").map cEmbed :=
  upload_order_and_ranges cSplit cEmbed cFile "d1" "t0" none "hello"
    (by decide) rfl (by decide)

/-- Claim C3: ingesting a document and then immediately deleting that
document's id returns the user's store to its pre-ingestion state: the
persisted chunk count equals the pre-ingestion count; when the store held
chunks before, the persisted index and metadata files are exactly the
originals; and when the index was previously empty or absent, the files end
up absent.  (Hypotheses: backend configured, both saves succeed, the fresh
uuid is not yet registered, and the pre-state's index rows are the
embeddings of its chunks — true of every state the service itself writes.) -/
theorem upload_then_delete_round_trip
    (split : String → List String) (embed : String → Vec)
    (docId now : String) (f : UploadedFile) (store : UserStore) (t : String)
    (hwf : indexMatches embed store)
    (hfresh : dictGet? (load_user_index store).2.documents docId = none)
    (hname : f.filename ≠ "") (ht : f.parsed = some t) (hcs : split t ≠ []) :
    storeChunkCount (deleteDocument embed true true
        (uploadDocument split embed true f docId now true store).2 docId).2 =
      storeChunkCount store ∧
    (storeChunkCount store ≠ 0 →
      (deleteDocument embed true true
          (uploadDocument split embed true f docId now true store).2 docId).2 =
        store) ∧
    (storeChunkCount store = 0 →
      (deleteDocument embed true true
          (uploadDocument split embed true f docId now true store).2 docId).2 =
        none) := by
  have hmid : (uploadDocument split embed true f docId now true store).2 =
      some (⟨uploadDim embed store (split t),
          storeRows store ++ (split t).map embed⟩,
        ⟨dictInsert (load_user_index store).2.documents docId
           (mkEntry f now (storeChunkCount store) (split t).length),
         storeChunks store ++ mkChunks docId f.filename (split t)⟩) := by
    rw [uploadDocument_eq split embed f docId now true store t hname ht hcs]
    rfl
  rw [hmid]
  have hget : dictGet?
      (dictInsert (load_user_index store).2.documents docId
        (mkEntry f now (storeChunkCount store) (split t).length)) docId =
      some (mkEntry f now (storeChunkCount store) (split t).length) :=
    dictGet?_insert_self _ _ _
  rw [deleteDocument_eq embed true
    ⟨uploadDim embed store (split t), storeRows store ++ (split t).map embed⟩
    (dictInsert (load_user_index store).2.documents docId
      (mkEntry f now (storeChunkCount store) (split t).length))
    (storeChunks store ++ mkChunks docId f.filename (split t))
    docId (mkEntry f now (storeChunkCount store) (split t).length) hget]
  rw [mkEntry_start, mkEntry_end]
  have hsurv : removeRange
      (storeChunks store ++ mkChunks docId f.filename (split t))
      (storeChunkCount store) (storeChunkCount store + (split t).length) =
      storeChunks store := by
    have h2 : storeChunkCount store + (split t).length =
        (storeChunks store).length +
          (mkChunks docId f.filename (split t)).length := by
      rw [length_mkChunks]
      rfl
    rw [h2]
    exact removeRange_append_self _ _
  rw [hsurv]
  have hremove : dictRemove
      (dictInsert (load_user_index store).2.documents docId
        (mkEntry f now (storeChunkCount store) (split t).length)) docId =
      (load_user_index store).2.documents :=
    dictRemove_insert_fresh _ _ _ hfresh
  rw [hremove]
  by_cases hnil : storeChunks store = []
  · rw [if_pos hnil]
    have hLz : storeChunkCount store = 0 := by
      rw [storeChunkCount, hnil]
      rfl
    exact ⟨by rw [hLz]; rfl, fun h => absurd hLz h, fun _ => rfl⟩
  · rw [if_neg hnil, if_pos rfl]
    cases store with
    | none => exact absurd rfl hnil
    | some pr =>
      obtain ⟨i0, m0⟩ := pr
      obtain ⟨hrows0, hdim0⟩ := hwf i0 m0 rfl
      have hidx : (⟨((((storeChunks (some (i0, m0))).map
            (fun c => embed c.content)).headD []).length),
          (storeChunks (some (i0, m0))).map (fun c => embed c.content)⟩ :
            FaissIndex) = i0 := by
        have hr : (storeChunks (some (i0, m0))).map
            (fun c => embed c.content) = i0.rows := hrows0.symm
        rw [hr]
        have hd : ((i0.rows.headD []).length) = i0.dim := by
          rw [hrows0]
          exact hdim0.symm
        rw [hd]
      have hmd : (⟨(load_user_index (some (i0, m0))).2.documents,
          storeChunks (some (i0, m0))⟩ : Metadata) = m0 := rfl
      refine ⟨rfl, fun _ => ?_, fun hz => ?_⟩
      · rw [hidx, hmd]
      · exact absurd (by rwa [storeChunkCount, List.length_eq_zero] at hz) hnil

/-- Witness for C3: round trip on an initially empty store ends with the
files absent and chunk count 0. -/
theorem upload_then_delete_round_trip_witness :
    storeChunkCount (deleteDocument cEmbed true true
        (uploadDocument cSplit cEmbed true cFile "d1" "t0" true none).2 "d1").2 =
      storeChunkCount none ∧
    (storeChunkCount (none : UserStore) ≠ 0 →
      (deleteDocument cEmbed true true
          (uploadDocument cSplit cEmbed true cFile "d1" "t0" true none).2 "d1").2 =
        none) ∧
    (storeChunkCount (none : UserStore) = 0 →
      (deleteDocument cEmbed true true
          (uploadDocument cSplit cEmbed true cFile "d1" "t0" true none).2 "d1").2 =
        none) :=
  upload_then_delete_round_trip cSplit cEmbed "d1" "t0" cFile none "hello"
    (fun _ _ h => Option.noConfusion h) rfl (by decide) rfl (by decide)

/-- Claim C9: every delete request whose document id is absent from the
user's metadata fails with HTTP 404 and leaves the persisted index and
metadata unchanged. -/
theorem delete_unknown_id_404 (embed : String → Vec) (configured saveOk : Bool)
    (store : UserStore) (docId : String)
    (h : dictGet? (load_user_index store).2.documents docId = none) :
    deleteDocument embed configured saveOk store docId =
      (Except.error ⟨404, "Document not found"⟩, store) := by
  simp only [deleteDocument, h]

/-- Witness for C9: deleting from a user with no stored files is a 404 that
leaves the (absent) files untouched. -/
theorem delete_unknown_id_404_witness :
    deleteDocument cEmbed true true none "missing" =
      (Except.error ⟨404, "Document not found"⟩, none) :=
  delete_unknown_id_404 cEmbed true true none "missing" rfl

/-- Claim C8: when a deletion leaves no surviving chunks (its range covers
the whole chunk list, e.g. the only document of the user), the persisted
index file and metadata file are removed entirely (`none`), not saved as
empty structures. -/
theorem delete_all_chunks_removes_files (embed : String → Vec)
    (configured saveOk : Bool) (i : FaissIndex) (m : Metadata)
    (docId : String) (doc : DocEntry)
    (hdoc : dictGet? m.documents docId = some doc)
    (h0 : doc.start_index = 0) (hend : m.chunks.length ≤ doc.end_index) :
    deleteDocument embed configured saveOk (some (i, m)) docId =
      (Except.ok ("Document " ++ docId ++ " deleted successfully"), none) := by
  have hload : (load_user_index (some (i, m))).2 = m := rfl
  have hrr : removeRange m.chunks doc.start_index doc.end_index = [] := by
    rw [h0, removeRange_eq m.chunks 0 doc.end_index (Nat.zero_le _)]
    rw [List.take_zero, List.nil_append]
    exact List.drop_eq_nil_of_le hend
  simp only [deleteDocument, hload, hdoc, hrr]
  simp

/-- Witness for C8: deleting the only document of `cStore1` removes both
persisted files. -/
theorem delete_all_chunks_removes_files_witness :
    deleteDocument cEmbed true true cStore1 "d0" =
      (Except.ok ("Document " ++ "d0" ++ " deleted successfully"), none) :=
  delete_all_chunks_removes_files cEmbed true true _ _ "d0"
    ⟨"a.txt", 5, 1, "t0", 0, 1⟩ rfl rfl (by decide)

/-- Claim C5 counterexample: the claim says a search for a user with no
index NEVER raises an error; but when the embedding backend is not
configured the endpoint raises a 500 before even looking at the store. -/
theorem search_unconfigured_errors_without_index :
    searchDocuments cEmbed false none "q" 5 =
      Except.error ⟨500, "OpenAI API key not configured"⟩ := rfl

/-- Claim C5 (amended): provided the embedding backend is configured, every
search against a user with no stored index returns an empty result list with
`total = 0` and never an error. -/
theorem search_no_index_empty (embed : String → Vec) (q : String) (k : Nat) :
    searchDocuments embed true none q k = Except.ok ⟨[], 0⟩ := rfl

/-- Claim C6: the claim says extraction failure and zero extracted chunks
produce a client-facing 400; in fact the 400 `HTTPException`s raised inside
`upload_document`'s try block are caught by its bare `except Exception` and
rewrapped as 500s ("Error processing document: 400: ...").  No index
mutation happens in either case (the store stays `none`). -/
theorem upload_extraction_failure_is_500 :
    uploadDocument cSplit cEmbed true cBadPdf "d" "t" true none =
      (Except.error
        ⟨500, "Error processing document: 400: Failed to extract text from doc.pdf"⟩,
       none) ∧
    uploadDocument cEmptySplit cEmbed true cFile "d" "t" true none =
      (Except.error
        ⟨500, "Error processing document: 400: No text content found in file"⟩,
       none) ∧
    uploadDocument cSplit cEmbed true ⟨"", some "x", 1⟩ "d" "t" true none =
      (Except.error ⟨400, "No file provided"⟩, none) := by
  refine ⟨rfl, rfl, rfl⟩

/-- Claim C10: a successful deletion compacts the chunk list — the deleted
document's range `[start_index, end_index)` is removed and the survivors
keep their relative order (`take start ++ drop end`) — while every
surviving document's registry entry (including its `start_index` and
`end_index`) is byte-for-byte unchanged.  Consequently a chunk that sat at
position `j ≥ end_index` now sits at `j - (end_index - start_index)`, which
is strictly less than `j` whenever the deleted range was non-empty: the
surviving entries' recorded ranges no longer denote their chunks' positions
in the compacted list. -/
theorem delete_keeps_stale_ranges (embed : String → Vec)
    (i : FaissIndex) (m : Metadata) (docId : String) (doc : DocEntry)
    (hdoc : dictGet? m.documents docId = some doc)
    (hse : doc.start_index ≤ doc.end_index)
    (he : doc.end_index ≤ m.chunks.length)
    (hne : m.chunks.take doc.start_index ++ m.chunks.drop doc.end_index ≠ []) :
    ∃ i',
      (deleteDocument embed true true (some (i, m)) docId).2 =
        some (i', ⟨dictRemove m.documents docId,
          m.chunks.take doc.start_index ++ m.chunks.drop doc.end_index⟩) ∧
      (∀ k, k ≠ docId →
        dictGet? (dictRemove m.documents docId) k = dictGet? m.documents k) ∧
      (∀ j, doc.end_index ≤ j → j < m.chunks.length →
        (m.chunks.take doc.start_index ++ m.chunks.drop doc.end_index).getD
            (j - (doc.end_index - doc.start_index)) default =
          m.chunks.getD j default) ∧
      (doc.start_index < doc.end_index →
        ∀ j, doc.end_index ≤ j → j - (doc.end_index - doc.start_index) < j) := by
  have hrr := removeRange_eq m.chunks doc.start_index doc.end_index hse
  have hdel : (deleteDocument embed true true (some (i, m)) docId).2 =
      some (⟨(((m.chunks.take doc.start_index ++
            m.chunks.drop doc.end_index).map (fun c => embed c.content)).headD
          []).length,
        (m.chunks.take doc.start_index ++ m.chunks.drop doc.end_index).map
          (fun c => embed c.content)⟩,
        ⟨dictRemove m.documents docId,
         m.chunks.take doc.start_index ++ m.chunks.drop doc.end_index⟩) := by
    simp only [deleteDocument, load_user_index, hdoc, hrr]
    rw [if_neg hne]
    simp
  refine ⟨_, hdel, fun k hk => dictGet?_remove_ne _ _ _ hk, ?_, ?_⟩
  · intro j hej hjl
    have hs_len : (m.chunks.take doc.start_index).length = doc.start_index := by
      rw [List.length_take]
      omega
    rw [List.getD_eq_getElem?_getD, List.getD_eq_getElem?_getD]
    rw [List.getElem?_append_right (by rw [hs_len]; omega)]
    rw [hs_len, List.getElem?_drop]
    have harith : doc.end_index +
        (j - (doc.end_index - doc.start_index) - doc.start_index) = j := by
      omega
    rw [harith]
  · intro hlt j hej
    omega

/-- Witness for C10: deleting the first of two documents in `cStore2`
leaves the second document's entry (with its now-stale range `[1, 2)`)
unchanged while its chunk moves from position 1 to position 0. -/
theorem delete_keeps_stale_ranges_witness :
    ∃ i',
      (deleteDocument cEmbed true true cStore2 "dA").2 =
        some (i', ⟨dictRemove cDocs2 "dA",
          cChunks2.take cDocA.start_index ++ cChunks2.drop cDocA.end_index⟩) ∧
      (∀ k, k ≠ "dA" →
        dictGet? (dictRemove cDocs2 "dA") k = dictGet? cDocs2 k) ∧
      (∀ j, cDocA.end_index ≤ j → j < cChunks2.length →
        (cChunks2.take cDocA.start_index ++
            cChunks2.drop cDocA.end_index).getD
            (j - (cDocA.end_index - cDocA.start_index)) default =
          cChunks2.getD j default) ∧
      (cDocA.start_index < cDocA.end_index →
        ∀ j, cDocA.end_index ≤ j →
          j - (cDocA.end_index - cDocA.start_index) < j) :=
  delete_keeps_stale_ranges cEmbed ⟨1, [[1], [2]]⟩ ⟨cDocs2, cChunks2⟩
    "dA" cDocA rfl (by decide) (by decide) (by decide)

/-- Claim C4: for every configured search, the number of returned results
equals `min top_k chunk_count`, the results are in score-descending order,
and the result count never exceeds `top_k` — given the row-count
invariant. -/
theorem search_top_k_bound (embed : String → Vec) (store : UserStore)
    (q : String) (top_k : Nat) (hinv : rowInv store) :
    ∃ r, searchDocuments embed true store q top_k = Except.ok r ∧
      r.results.length = min top_k (storeChunkCount store) ∧
      List.Pairwise (fun a b : SearchResult => b.score ≤ a.score) r.results ∧
      r.results.length ≤ top_k := by
  cases store with
  | none =>
    exact ⟨⟨[], 0⟩, rfl, by simp [storeChunkCount, storeChunks,
      load_user_index, Metadata.empty], List.Pairwise.nil, by simp⟩
  | some pr =>
    obtain ⟨i, m⟩ := pr
    have hrows : i.rows.length = m.chunks.length := hinv i m rfl
    by_cases hemp : m.chunks = []
    · refine ⟨⟨[], 0⟩, ?_, ?_, List.Pairwise.nil, by simp⟩
      · simp [searchDocuments, load_user_index, hemp]
      · simp [storeChunkCount, storeChunks, load_user_index, hemp]
    · have hcount : storeChunkCount (some (i, m)) = m.chunks.length := rfl
      have hfilter :
          (FaissIndex.search i (embed q) (min top_k m.chunks.length)).filter
            (fun p => p.2 < m.chunks.length) =
          FaissIndex.search i (embed q) (min top_k m.chunks.length) := by
        rw [List.filter_eq_self]
        intro p hp
        have := snd_lt_of_mem_FaissIndex_search i (embed q)
          (min top_k m.chunks.length) p hp
        simp only [decide_eq_true_eq]
        omega
      have heq : searchDocuments embed true (some (i, m)) q top_k =
          Except.ok
            ⟨((FaissIndex.search i (embed q)
                (min top_k m.chunks.length)).filter
                  (fun p => p.2 < m.chunks.length)).map
                (fun p =>
                  let chunk_data := m.chunks.getD p.2 default
                  { content := chunk_data.content
                    metadata := chunk_data.meta
                    score := p.1 : SearchResult }),
              (((FaissIndex.search i (embed q)
                (min top_k m.chunks.length)).filter
                  (fun p => p.2 < m.chunks.length)).map
                (fun p =>
                  let chunk_data := m.chunks.getD p.2 default
                  { content := chunk_data.content
                    metadata := chunk_data.meta
                    score := p.1 : SearchResult })).length⟩ := by
        simp only [searchDocuments, load_user_index]
        rw [if_neg (by simp), if_neg hemp]
      refine ⟨_, heq, ?_, ?_, ?_⟩
      · rw [List.length_map, hfilter, length_FaissIndex_search, hrows, hcount]
        rw [Nat.min_assoc, Nat.min_self]
      · rw [hfilter, List.pairwise_map]
        exact pairwise_FaissIndex_search i (embed q) (min top_k m.chunks.length)
      · rw [List.length_map, hfilter, length_FaissIndex_search]
        omega

/-- Witness for C4: searching `cStore2` (two chunks) with `top_k = 5`
returns exactly `min 5 2 = 2` results, score-descending. -/
theorem search_top_k_bound_witness :
    ∃ r, searchDocuments cEmbed true cStore2 "q" 5 = Except.ok r ∧
      r.results.length = min 5 (storeChunkCount cStore2) ∧
      List.Pairwise (fun a b : SearchResult => b.score ≤ a.score) r.results ∧
      r.results.length ≤ 5 :=
  search_top_k_bound cEmbed cStore2 "q" 5
    (fun i m h => by cases h; decide)

/-- Claim C2 counterexample: the claim says the caller gets
`document_id`/`chunks_created` only after the persist step SUCCEEDS; but
`upload_document` ignores `save_user_index`'s boolean result, so with a
failing save the endpoint still reports success while the persisted store
is unchanged (here: still absent). -/
theorem upload_succeeds_despite_failed_save :
    uploadDocument cSplit cEmbed true cFile "d1" "t0" false none =
      (Except.ok ⟨"d1", "a.txt", 1, "Document uploaded and indexed successfully"⟩,
       none) := rfl

/-- Claim C2 (amended): if any pipeline stage fails, the operation aborts
before any persistence write — the result is an error and the stored index
and metadata are unchanged; once the pipeline succeeds, the caller receives
`document_id` and `chunks_created` regardless of whether the persist step
succeeds. -/
theorem upload_abort_on_failure_response_after_save
    (split : String → List String) (embed : String → Vec) (configured : Bool)
    (f : UploadedFile) (docId now : String) (saveOk : Bool) (store : UserStore) :
    (∀ e, (uploadDocument split embed configured f docId now saveOk store).1 =
        Except.error e →
      (uploadDocument split embed configured f docId now saveOk store).2 = store) ∧
    (∀ t, configured = true → f.filename ≠ "" → f.parsed = some t →
        split t ≠ [] →
      (uploadDocument split embed configured f docId now saveOk store).1 =
        Except.ok
          { document_id := docId
            filename := f.filename
            chunks_created := (split t).length
            message := "Document uploaded and indexed successfully" }) := by
  constructor
  · intro e he
    by_cases hc : configured = false
    · simp [uploadDocument, hc]
    · by_cases hf : f.filename = ""
      · simp [uploadDocument, hc, hf]
      · simp only [uploadDocument, if_neg hc, if_neg hf] at he ⊢
        cases hp : uploadPipeline split embed docId now f store with
        | error e' => simp [hp]
        | ok v =>
          obtain ⟨n, idx, md⟩ := v
          rw [hp] at he
          simp at he
  · intro t hc hf ht hcs
    subst hc
    rw [uploadDocument_eq split embed f docId now saveOk store t hf ht hcs]

/-- Witness for C2 (amended): concrete run with a failing save; the
response still carries the document id and chunk count. -/
theorem upload_abort_on_failure_response_after_save_witness :
    (uploadDocument cSplit cEmbed true cFile "d1" "t0" false none).1 =
      Except.ok
        { document_id := "d1"
          filename := "a.txt"
          chunks_created := 1
          message := "Document uploaded and indexed successfully" } :=
  (upload_abort_on_failure_response_after_save cSplit cEmbed true cFile
      "d1" "t0" false none).2 "hello" rfl (by decide) rfl (by decide)

end VectorService
